import Mathlib

set_option maxRecDepth 8000

/-!
Shallow embedding of the path-resolution core of the cfmleditor extension:
the file utilities module (directory/component filters, the `fileExists`
probe, and the tiered dotted-path resolution `resolveDottedPaths` with its
helpers `resolveRelativePath`, `resolveRootPath`, `resolveCustomMappingPaths`)
and `src/features/documentLinkProvider.ts` (link-pattern scanning and
`resolveLink`).

Strings are modelled through their character lists (`String.data`), which is
faithful for the ASCII data the claims exercise.  VS Code `Uri` values are
modelled by their path strings, and `Uri.joinPath` by a posix-style join on
those strings.  The ambient host state that the source reads — the
`workspace.fs.stat` probe, `workspace.getWorkspaceFolder` for the base
location of the resolution, and the `cfml.mappings` configuration — is an
explicit environment record `Env`.
-/

/-- VS Code `FileType` enumeration values.  The source compares with strict
equality (`===`), so a combined symlink flag would not equal `Directory` or
`File`; the inductive keeps the constructors distinct in the same way. -/
inductive FileType where
  | unknown
  | file
  | directory
  | symbolicLink
deriving DecidableEq

/-- The distinguishable ways the host `workspace.fs.stat` call can reject:
no entry at the path, a permission failure, or an invalid path. -/
inductive StatError where
  | absent
  | permission
  | invalid
deriving DecidableEq

/-- A `cfml.mappings` configuration entry (interface `CFMLMapping`):
`logicalPath`, `directoryPath`, and the optional `isPhysicalDirectoryPath`. -/
structure CFMLMapping where
  logicalPath : String
  directoryPath : String
  isPhysicalDirectoryPath : Option Bool
deriving DecidableEq

/-- Ambient host state read by the source.  `statE` models `workspace.fs.stat`
on a path string, with `Except.error` standing for the rejection that
`fileExists` catches; `workspaceFolder` models
`workspace.getWorkspaceFolder(baseUri)` for the resolution's base location
(`none` when the base location is outside the workspace); `mappings` models
the `cfml.mappings` configuration value read by `resolveCustomMappingPaths`. -/
structure Env where
  statE : String → Except StatError FileType
  workspaceFolder : Option String
  mappings : List CFMLMapping

/-- JavaScript `s.length` on ASCII strings (UTF-16 units = characters). -/
def strLen (s : String) : Nat := s.data.length

/-- JavaScript `s.slice(n)` on ASCII strings. -/
def strDrop (s : String) (n : Nat) : String := String.mk (s.data.drop n)

/-- JavaScript-style slice of the character range `[a, b)`, used to read the
text under a reported document span. -/
def sliceStr (s : String) (a b : Nat) : String :=
  String.mk ((s.data.drop a).take (b - a))

/-- Model of `Uri.joinPath(base, seg).fsPath` (posix `path.join` on the two
path strings), for segments without `.`/`..` components: drop a single
trailing separator of the base and a single leading separator of the segment
and concatenate with a separator; joining an empty segment returns the base
unchanged (posix `join(p, "") = p`), and joining onto an empty base returns
the segment. -/
def joinPath (base seg : String) : String :=
  if seg = "" then base
  else if base = "" then seg
  else String.mk
    ((if base.data.getLast? = some '/' then base.data.dropLast else base.data)
      ++ '/' :: (if seg.data.head? = some '/' then seg.data.drop 1 else seg.data))

/-- `filterDirectories` keeps the listing entries whose kind is
`FileType.Directory` (strict equality in the source). -/
def filterDirectories (files : List (String × FileType)) : List (String × FileType) :=
  files.filter fun file => if file.2 = FileType.directory then true else false

/-- Model of the test `/\.cfc$/gi.test(name)`: the name ends,
case-insensitively on ASCII, with the `.cfc` suffix.  The regex literal is
re-created on every callback invocation, so the `g` flag carries no state
between entries. -/
def cfcSuffixTest (name : String) : Bool :=
  List.isSuffixOf ".cfc".data (name.data.map Char.toLower)

/-- `filterComponents` keeps the listing entries whose kind is
`FileType.File` and whose name passes the `.cfc` suffix test. -/
def filterComponents (files : List (String × FileType)) : List (String × FileType) :=
  files.filter fun file =>
    if file.2 = FileType.file ∧ cfcSuffixTest file.1 = true then true else false

/-- `fileExists`: `await workspace.fs.stat(Uri.file(path))` inside
`try/catch` — any successful stat yields `true`, any rejection is caught and
yields `false`. -/
def fileExists (env : Env) (path : String) : Bool :=
  match env.statE path with
  | Except.ok _ => true
  | Except.error _ => false

/-- `dotPath.replace(/\./g, "/")` (line 65 of the utilities module). -/
def dotsToSlashes (dotPath : String) : String :=
  String.mk (dotPath.data.map fun c => if c = '.' then '/' else c)

/-- `appendingPath.replace(/\\/g, "/")` (line 138 of the utilities module). -/
def backslashesToSlashes (appendingPath : String) : String :=
  String.mk (appendingPath.data.map fun c => if c = '\\' then '/' else c)

/-- `resolveRelativePath(baseUri, appendingPath)`:
`Uri.joinPath(baseUri, appendingPath).fsPath` — the appending path is joined
onto the base URI's own path. -/
def resolveRelativePath (baseUri appendingPath : String) : String :=
  joinPath baseUri appendingPath

/-- `resolveRootPath(baseUri, appendingPath)`: `undefined` when the base
location has no workspace folder, otherwise the appending path joined onto
the workspace folder's path. -/
def resolveRootPath (env : Env) (appendingPath : String) : Option String :=
  match env.workspaceFolder with
  | none => none
  | some root => some (joinPath root appendingPath)

/-- The literal-fragment reading of the line 141-142 test
`new RegExp("^" + slicedLogicalPath + "(?:\/|$)").test(normalizedPath)`: the
normalized path starts with the sliced logical path and the character right
after it, if any, is a separator.  This is the test's meaning only when the
sliced logical path contains no regex metacharacter; the faithful
classification of the unescaped-interpolation semantics (metacharacters are
regex source, and an invalid pattern makes the constructor throw) is
`logicalPathStartRegexTest` below, and `logicalPathStartRegexTest_of_plain`
proves the two agree on the metacharacter-free fragment. -/
def logicalPathStartPatternTest (slicedLogicalPath normalizedPath : String) : Bool :=
  slicedLogicalPath.data.isPrefixOf normalizedPath.data &&
    (match normalizedPath.data.drop slicedLogicalPath.data.length with
     | [] => true
     | c :: _ => c == '/')

/-- Line 143 of the utilities module.  When `isPhysicalDirectoryPath` is
`false` and the base location has no workspace folder, `resolveRootPath`
yields `undefined`; `Uri.parse` then coerces it with `ToString` (JavaScript
`RegExp.exec` stringifies its argument), so no exception is raised and the
candidate base degenerates to the literal string `"undefined"`. -/
def effectiveDirectoryPath (env : Env) (m : CFMLMapping) : String :=
  match m.isPhysicalDirectoryPath with
  | none => m.directoryPath
  | some true => m.directoryPath
  | some false =>
    match resolveRootPath env m.directoryPath with
    | some p => p
    | none => "undefined"

/-- The `for (const cfmlMapping of cfmlMappings)` loop of
`resolveCustomMappingPaths`: for each mapping whose sliced logical path
passes the start-pattern test against the normalized path, push the join of
the effective directory path with `appendingPath.slice(sliced.length)`. -/
def mappingCandidates (env : Env) (appendingPath normalizedPath : String) :
    List CFMLMapping → List String
  | [] => []
  | m :: rest =>
    let sliced := strDrop m.logicalPath 1
    if logicalPathStartPatternTest sliced normalizedPath then
      joinPath (effectiveDirectoryPath env m) (strDrop appendingPath (strLen sliced)) ::
        mappingCandidates env appendingPath normalizedPath rest
    else mappingCandidates env appendingPath normalizedPath rest

/-- `resolveCustomMappingPaths(baseUri, appendingPath)`; the base URI enters
only through the environment (configuration and workspace-folder lookup). -/
def resolveCustomMappingPaths (env : Env) (appendingPath : String) : List String :=
  mappingCandidates env appendingPath (backslashesToSlashes appendingPath) env.mappings

/-- The `for (const mappedPath of customMappingPaths)` loop of
`resolveDottedPaths`: push each existing candidate, returning early when the
normalized path is non-empty. -/
def mappingLoop (env : Env) (normalizedPath : String) :
    List String → List String → List String
  | paths, [] => paths
  | paths, mp :: rest =>
    if fileExists env mp = true then
      if 0 < strLen normalizedPath then paths ++ [mp]
      else mappingLoop env normalizedPath (paths ++ [mp]) rest
    else mappingLoop env normalizedPath paths rest

/-- The custom-mappings tier of `resolveDottedPaths` (lines 89-99). -/
def mappingTier (env : Env) (normalizedPath : String) (paths : List String) :
    List String :=
  mappingLoop env normalizedPath paths (resolveCustomMappingPaths env normalizedPath)

/-- The web-root tier of `resolveDottedPaths` (lines 79-87): the guard
`if (rootPath && ...)` skips both an `undefined` root path and an empty
string (JavaScript truthiness). -/
def rootTier (env : Env) (normalizedPath : String) (paths : List String) :
    List String :=
  match resolveRootPath env normalizedPath with
  | none => mappingTier env normalizedPath paths
  | some rootPath =>
    if rootPath ≠ "" ∧ fileExists env rootPath = true then
      if 0 < strLen normalizedPath then paths ++ [rootPath]
      else mappingTier env normalizedPath (paths ++ [rootPath])
    else mappingTier env normalizedPath paths

/-- `resolveDottedPaths(dotPath, baseUri)` (lines 62-102): normalize the
dotted path, try the local tier, then the root tier, then the custom-mapping
tier, accumulating existing candidates and returning early after a hit
whenever the normalized path is non-empty. -/
def resolveDottedPaths (env : Env) (dotPath baseUri : String) : List String :=
  let normalizedPath := dotsToSlashes dotPath
  let localPath := resolveRelativePath baseUri normalizedPath
  if fileExists env localPath = true then
    if 0 < strLen normalizedPath then [localPath]
    else rootTier env normalizedPath [localPath]
  else rootTier env normalizedPath []

/-- A raw link-pattern match: the absolute start index of the match within
the document text, the full matched text (`match[0]`), and the captured link
substring (`match[element.linkIndex]`). -/
structure RawLinkMatch where
  index : Nat
  full : List Char
  link : List Char
deriving DecidableEq

/-- A produced document link: the source span `[startOffset, endOffset)` in
document character coordinates and the resolved target. -/
structure DocLink where
  startOffset : Nat
  endOffset : Nat
  target : String
deriving DecidableEq

/-- The whitespace class `\s` of the scanner's patterns (ASCII part). -/
def isJsSpace (c : Char) : Bool :=
  c = ' ' || c = '\t' || c = '\n' || c = '\r' || c = '\x0b' || c = '\x0c'

/-- The word class `\w` used by the `\b` boundary assertion. -/
def isWordChar (c : Char) : Bool :=
  ('a' ≤ c && c ≤ 'z') || ('A' ≤ c && c ≤ 'Z') || ('0' ≤ c && c ≤ '9') || c = '_'

/-- The quote class `['"]` of the scanner's patterns. -/
def isQuoteChar (c : Char) : Bool := c = '\'' || c = '"'

/-- Case-insensitive match of a (lowercase) keyword at the head of the
input, returning the number of characters consumed. -/
def matchKeywordCILen : List Char → List Char → Option Nat
  | [], _ => some 0
  | _ :: _, [] => none
  | k :: ks, c :: cs =>
    if c.toLower = k then (matchKeywordCILen ks cs).map (· + 1) else none

/-- Length of the leading run of characters satisfying the predicate. -/
def countLeading (p : Char → Bool) : List Char → Nat
  | [] => 0
  | c :: cs => if p c then countLeading p cs + 1 else 0

/-- The quoted tail `(['"])([^'"]+?)\1` of both patterns: an opening quote, a
non-empty run of non-quote characters, and the same closing quote.  The lazy
group together with the character class makes the match deterministic: the
content stops at the first quote character, which must equal the opener.
Returns the consumed length (quotes included) and the captured content. -/
def matchQuoted : List Char → Option (Nat × List Char)
  | [] => none
  | q :: rest =>
    if isQuoteChar q then
      let content := rest.takeWhile fun c => !(isQuoteChar c)
      match rest.drop content.length with
      | [] => none
      | c :: _ =>
        if c = q ∧ content ≠ [] then some (content.length + 2, content) else none
    else none

/-- The alternation `(href|src|template|action|url)` of the first pattern,
tried in source order (the alternatives start with distinct letters, so at
most one can apply at a position). -/
def tryAttrName : List (List Char) → List Char → Option Nat
  | [], _ => none
  | kw :: kws, cs =>
    match matchKeywordCILen kw cs with
    | some n => some n
    | none => tryAttrName kws cs

/-- The attribute names of the first link pattern. -/
def attrNames : List (List Char) :=
  ["href".data, "src".data, "template".data, "action".data, "url".data]

/-- Matcher for the first link pattern
`\b(href|src|template|action|url)\s*(?:=|:|\()\s*(['"])([^'"]+?)\2` (flags
`gi`) at one position: `prev` is the character before the position (for the
`\b` assertion — the name starts with a word character, so the boundary holds
exactly when the previous character is absent or not a word character).
Returns the length of `match[0]` and the captured link text (group 3). -/
def matchAttrPatternAt (prev : Option Char) (cs : List Char) : Option (Nat × List Char) :=
  let boundaryOk := match prev with | none => true | some p => !isWordChar p
  if !boundaryOk then none
  else
    match tryAttrName attrNames cs with
    | none => none
    | some n1 =>
      let rest1 := cs.drop n1
      let s1 := countLeading isJsSpace rest1
      match rest1.drop s1 with
      | [] => none
      | c :: rest3 =>
        if c = '=' || c = ':' || c = '(' then
          let s2 := countLeading isJsSpace rest3
          match matchQuoted (rest3.drop s2) with
          | some (qn, content) => some (n1 + s1 + 1 + s2 + qn, content)
          | none => none
        else none

/-- Matcher for the second link pattern `\binclude\s+(['"])([^'"]+?)\1`
(flags `gi`) at one position.  Returns the length of `match[0]` and the
captured link text (group 2). -/
def matchIncludePatternAt (prev : Option Char) (cs : List Char) : Option (Nat × List Char) :=
  let boundaryOk := match prev with | none => true | some p => !isWordChar p
  if !boundaryOk then none
  else
    match matchKeywordCILen "include".data cs with
    | none => none
    | some n1 =>
      let rest1 := cs.drop n1
      let s1 := countLeading isJsSpace rest1
      if s1 = 0 then none
      else
        match matchQuoted (rest1.drop s1) with
        | some (qn, content) => some (n1 + s1 + qn, content)
        | none => none

/-- The `while ((match = pattern.exec(documentText)))` loop with the `g`
flag: repeatedly find the next match at or after the current position and
continue from its end (the patterns never match the empty string; the
`max len 1` step only guards the recursion).  `prev` tracks the character
preceding the current position for the `\b` assertion; the fuel is the text
length, which bounds the number of loop steps since every step advances. -/
def scanAux (matchAt : Option Char → List Char → Option (Nat × List Char)) :
    Nat → Option Char → Nat → List Char → List RawLinkMatch
  | 0, _, _, _ => []
  | _ + 1, _, _, [] => []
  | fuel + 1, prev, i, c :: cs =>
    match matchAt prev (c :: cs) with
    | some (len, link) =>
      let n := max len 1
      let full := (c :: cs).take len
      ⟨i, full, link⟩ ::
        scanAux matchAt fuel (some (full.getLast?.getD c)) (i + n) ((c :: cs).drop n)
    | none => scanAux matchAt fuel (some c) (i + 1) cs

/-- All matches of one pattern over the full document text, in order. -/
def execAllMatches (matchAt : Option Char → List Char → Option (Nat × List Char))
    (text : String) : List RawLinkMatch :=
  scanAux matchAt text.data.length none 0 text.data

/-- All raw matches of the two `linkPatterns` rules, each scanned
independently and exhaustively over the same full text. -/
def documentLinkMatches (text : String) : List RawLinkMatch :=
  execAllMatches matchAttrPatternAt text ++ execAllMatches matchIncludePatternAt text

/-- JavaScript `hay.indexOf(needle)` on character lists: the first index at
which the needle occurs, or `none`. -/
def indexOfSubFrom (needle : List Char) : List Char → Nat → Option Nat
  | [], i => if needle.isPrefixOf ([] : List Char) then some i else none
  | h :: t, i =>
    if needle.isPrefixOf (h :: t) then some i else indexOfSubFrom needle t (i + 1)

/-- Modelled from the spec: `isUri` (imported from a text-utility module that
is not part of the sources here) together with the `Uri.parse(link).scheme`
check — "the link text parses as a fully qualified reference with an explicit
scheme (e.g., `scheme://...` or `scheme:...`)": an ASCII scheme
`[A-Za-z][A-Za-z0-9+.-]*` followed by `:`. -/
def isSchemeStartChar (c : Char) : Bool :=
  ('a' ≤ c && c ≤ 'z') || ('A' ≤ c && c ≤ 'Z')

/-- Characters allowed after the first character of a URI scheme. -/
def isSchemeChar (c : Char) : Bool :=
  isSchemeStartChar c || ('0' ≤ c && c ≤ '9') || c = '+' || c = '.' || c = '-'

/-- After the scheme's first character: scheme characters up to a colon. -/
def schemeTailReachesColon : List Char → Bool
  | [] => false
  | c :: cs => if c = ':' then true else if isSchemeChar c then schemeTailReachesColon cs else false

/-- The link text carries an explicit scheme (see `isSchemeStartChar`). -/
def hasExplicitScheme (link : String) : Bool :=
  match link.data with
  | [] => false
  | c :: rest => isSchemeStartChar c && schemeTailReachesColon rest

/-- `link.split(/[?#]/)[0]`: the prefix before the first `?` or `#`. -/
def splitQueryFragment (link : String) : String :=
  String.mk (link.data.takeWhile fun c => !(c = '?' || c = '#'))

/-- `resolveLink(document, link)` of the document-link provider: fragment
links resolve to nothing; scheme-qualified links return the reference
verbatim with no filesystem access; otherwise the link is stripped of any
query/fragment suffix and resolved against the workspace root (when it
starts with a separator; no root means no candidate) or against the path of
`document.fileName` itself, and the candidate must exist and stat as a
regular file. -/
def resolveLink (env : Env) (documentFileName : String) (link : String) : Option String :=
  if link.data.head? = some '#' then none
  else if hasExplicitScheme link = true then some link
  else
    let linkPath := splitQueryFragment link
    let resourcePath : Option String :=
      if linkPath ≠ "" ∧ linkPath.data.head? = some '/' then
        match env.workspaceFolder with
        | some root => some (joinPath root linkPath)
        | none => none
      else some (joinPath documentFileName linkPath)
    match resourcePath with
    | none => none
    | some rp =>
      if fileExists env rp = true then
        match env.statE rp with
        | Except.ok FileType.file => some rp
        | _ => none
      else none

/-- The per-match body of the scan loop: the captured link text, the offset
`match.index + match[0].indexOf(link)` (the capture always occurs inside the
full match, so the `indexOf` search cannot miss), the span of the link
text's length, and the resolved target; an unresolved match contributes
nothing. -/
def linkFromMatch (env : Env) (documentFileName : String) (m : RawLinkMatch) :
    Option DocLink :=
  let preLen := (indexOfSubFrom m.link m.full 0).getD 0
  let offset := m.index + preLen
  match resolveLink env documentFileName (String.mk m.link) with
  | some target => some ⟨offset, offset + m.link.length, target⟩
  | none => none

/-- The intended sequential aggregation of the scan: every raw match of every
rule, in rule order then text order, resolved and collected, with failing
resolutions skipped. -/
def scanDocumentLinks (env : Env) (documentFileName text : String) : List DocLink :=
  (documentLinkMatches text).filterMap (linkFromMatch env documentFileName)

/-- The value `provideDocumentLinks` actually resolves its promise with: the
method iterates `linkPatterns` with `forEach(async ...)`, whose callbacks
suspend at their first `await`; `forEach` ignores the returned promises, so
`return results` executes in the same turn the method was entered, before
any callback has pushed — the promise is resolved with the still-empty
array (callbacks append to it only in later microtasks). -/
def provideDocumentLinksResolvedValue (_env : Env) (_documentFileName _text : String) :
    List DocLink := []

/-- Modelled from the spec's words, for comparison only: "the directory
containing `baseLocation`" — the base path up to (excluding) its last
separator. -/
def containingDirectory (p : String) : String :=
  String.mk (((p.data.reverse.dropWhile fun c => !(c = '/')).drop 1).reverse)

/-- Host state in which every path stats as a regular file, the workspace
root is `/r`, and a mapping routes the logical prefix `/a` to `/m`. -/
def envAllFiles : Env :=
  ⟨fun _ => Except.ok FileType.file, some "/r", [⟨"/a", "/m", none⟩]⟩

/-- Host state in which every probe fails with an invalid-path error. -/
def envProbeFail : Env :=
  ⟨fun _ => Except.error StatError.invalid, some "/r", []⟩

/-- Host state with no workspace folder, a permission failure on every
probe, and a mapping whose `isPhysicalDirectoryPath` is `false` — the
configuration whose effective base is unresolvable. -/
def envNoRootDangerous : Env :=
  ⟨fun _ => Except.error StatError.permission, none, [⟨"/m", "relative/dir", some false⟩]⟩

/-- Host state in which only `/proj/dir/a/b` exists (the candidate that
joining onto the directory containing `/proj/dir/file.cfm` would produce). -/
def envLocalDirOnly : Env :=
  ⟨fun p => if p = "/proj/dir/a/b" then Except.ok FileType.file else Except.error StatError.absent,
    none, []⟩

/-- Host state whose only configuration is a mapping with logical path
`/foo` and physical base `/phys`. -/
def envFooMapping : Env :=
  ⟨fun _ => Except.error StatError.absent, none, [⟨"/foo", "/phys", none⟩]⟩

/-- Host state for the synthetic link-scan document: the workspace root is
`/ws` and exactly `/ws/doc.cfm/a/b.png` stats as a regular file. -/
def envImgDoc : Env :=
  ⟨fun p => if p = "/ws/doc.cfm/a/b.png" then Except.ok FileType.file else Except.error StatError.absent,
    some "/ws", []⟩

/-- The synthetic document of the link-scan offset property. -/
def imgDocText : String := "<img src=\"a/b.png\">"

/-- Nodes of the modelled regex fragment; each node consumes exactly one
character, so matching is deterministic with no backtracking. -/
inductive RegexNode where
  | lit (c : Char)
  | anyChar
deriving DecidableEq

/-- The characters that are special in JavaScript regex pattern source.  A
`/` is not special inside a `new RegExp` string argument. -/
def isRegexMeta (c : Char) : Bool :=
  c = '\\' || c = '^' || c = '$' || c = '.' || c = '*' || c = '+' || c = '?' ||
  c = '(' || c = ')' || c = '[' || c = ']' || c = '{' || c = '}' || c = '|'

/-- The sliced logical path is free of regex metacharacters: on this
fragment the unescaped interpolation behaves as a literal prefix. -/
def slicedPlain (sliced : String) : Bool :=
  sliced.data.all fun c => !(isRegexMeta c)

/-- The sliced logical path uses no metacharacter except the `.` wildcard. -/
def slicedLiteralDotFragment (sliced : String) : Bool :=
  sliced.data.all fun c => !(isRegexMeta c) || c = '.'

/-- Outcome of modelling the `new RegExp("^" + sliced + "(?:\/|$)")`
construction on line 141: a compiled node sequence when the sliced path is
inside the modelled fragment, a definite constructor `SyntaxError`, or a
pattern whose JavaScript behavior this embedding leaves undetermined. -/
inductive SlicedCompileResult where
  | compiled (nodes : List RegexNode)
  | invalidPattern
  | outOfFragment
deriving DecidableEq

/-- Model of the line-141 regex construction.  Literal-plus-`.` sliced paths
compile to one node per character.  When the sliced path contains no
backslash and no character class bracket, every round parenthesis in the
pattern source is structural, and since the appended `(?:\/|$)` is balanced,
an unbalanced parenthesis count in the sliced path makes the whole pattern
unparsable — `new RegExp` throws a `SyntaxError`.  Every other sliced path
is left out of the modelled fragment. -/
def compileSlicedPattern (sliced : String) : SlicedCompileResult :=
  if slicedLiteralDotFragment sliced = true then
    SlicedCompileResult.compiled
      (sliced.data.map fun c => if c = '.' then RegexNode.anyChar else RegexNode.lit c)
  else if (sliced.data.all fun c => !(c = '\\' || c = '[' || c = ']')) = true
      ∧ sliced.data.count '(' ≠ sliced.data.count ')' then
    SlicedCompileResult.invalidPattern
  else SlicedCompileResult.outOfFragment

/-- Anchored matching of a node sequence against the front of the input:
returns the remaining characters on success.  The `.` wildcard refuses line
terminators (ASCII part), as JavaScript `.` does without the `s` flag. -/
def matchNodesPrefix : List RegexNode → List Char → Option (List Char)
  | [], rest => some rest
  | _ :: _, [] => none
  | n :: ns, c :: cs =>
    match n with
    | RegexNode.lit l => if c = l then matchNodesPrefix ns cs else none
    | RegexNode.anyChar => if c = '\n' || c = '\r' then none else matchNodesPrefix ns cs

/-- The `^nodes(?:\/|$)` test: the nodes must match at the very start and be
followed by a separator or the end of the path. -/
def nodesStartTest (nodes : List RegexNode) (path : String) : Bool :=
  match matchNodesPrefix nodes path.data with
  | none => false
  | some [] => true
  | some (c :: _) => c == '/'

/-- Outcome of the line-141 test under the faithful regex reading. -/
inductive RegexTestResult where
  | result (b : Bool)
  | invalidPattern
  | outOfFragment
deriving DecidableEq

/-- Faithful classification of
`new RegExp("^" + sliced + "(?:\/|$)").test(normalizedPath)`: decided on the
modelled fragment, a constructor throw on a detected invalid pattern, and
undetermined outside the fragment. -/
def logicalPathStartRegexTest (sliced normalizedPath : String) : RegexTestResult :=
  match compileSlicedPattern sliced with
  | SlicedCompileResult.compiled nodes =>
    RegexTestResult.result (nodesStartTest nodes normalizedPath)
  | SlicedCompileResult.invalidPattern => RegexTestResult.invalidPattern
  | SlicedCompileResult.outOfFragment => RegexTestResult.outOfFragment

/-- Outcome of a resolution call under the faithful regex reading: a normal
return, a thrown `SyntaxError` from the regex constructor, or a run the
modelled fragment leaves undetermined (about which no theorem here
concludes anything). -/
inductive ResolveOutcome (α : Type) where
  | ok (a : α)
  | raises
  | unmodelled
deriving DecidableEq

/-- The `resolveCustomMappingPaths` loop under the faithful regex reading:
each iteration constructs the mapping's regex first, so an invalid pattern
throws before later mappings are examined and discards all candidates. -/
def mappingCandidatesE (env : Env) (appendingPath normalizedPath : String) :
    List CFMLMapping → ResolveOutcome (List String)
  | [] => ResolveOutcome.ok []
  | m :: rest =>
    match logicalPathStartRegexTest (strDrop m.logicalPath 1) normalizedPath with
    | RegexTestResult.invalidPattern => ResolveOutcome.raises
    | RegexTestResult.outOfFragment => ResolveOutcome.unmodelled
    | RegexTestResult.result b =>
      match mappingCandidatesE env appendingPath normalizedPath rest with
      | ResolveOutcome.ok l =>
        ResolveOutcome.ok
          (if b then
            joinPath (effectiveDirectoryPath env m)
              (strDrop appendingPath (strLen (strDrop m.logicalPath 1))) :: l
          else l)
      | other => other

/-- `resolveCustomMappingPaths` under the faithful regex reading. -/
def resolveCustomMappingPathsE (env : Env) (appendingPath : String) :
    ResolveOutcome (List String) :=
  mappingCandidatesE env appendingPath (backslashesToSlashes appendingPath) env.mappings

/-- The custom-mappings tier of `resolveDottedPaths` under the faithful
regex reading: the candidate list is computed before the existence loop, so
a constructor throw propagates out of `resolveDottedPaths`. -/
def mappingTierE (env : Env) (normalizedPath : String) (paths : List String) :
    ResolveOutcome (List String) :=
  match resolveCustomMappingPathsE env normalizedPath with
  | ResolveOutcome.ok cands => ResolveOutcome.ok (mappingLoop env normalizedPath paths cands)
  | ResolveOutcome.raises => ResolveOutcome.raises
  | ResolveOutcome.unmodelled => ResolveOutcome.unmodelled

/-- The web-root tier of `resolveDottedPaths` under the faithful regex
reading. -/
def rootTierE (env : Env) (normalizedPath : String) (paths : List String) :
    ResolveOutcome (List String) :=
  match resolveRootPath env normalizedPath with
  | none => mappingTierE env normalizedPath paths
  | some rootPath =>
    if rootPath ≠ "" ∧ fileExists env rootPath = true then
      if 0 < strLen normalizedPath then ResolveOutcome.ok (paths ++ [rootPath])
      else mappingTierE env normalizedPath (paths ++ [rootPath])
    else mappingTierE env normalizedPath paths

/-- `resolveDottedPaths` under the faithful regex reading: identical to the
pure model except that the mapping tier can raise. -/
def resolveDottedPathsE (env : Env) (dotPath baseUri : String) :
    ResolveOutcome (List String) :=
  let normalizedPath := dotsToSlashes dotPath
  let localPath := resolveRelativePath baseUri normalizedPath
  if fileExists env localPath = true then
    if 0 < strLen normalizedPath then ResolveOutcome.ok [localPath]
    else rootTierE env normalizedPath [localPath]
  else rootTierE env normalizedPath []

/-- Host state whose only configuration is a mapping with the logical path
`/(` — its sliced pattern makes the line-141 regex constructor throw. -/
def envParenMapping : Env :=
  ⟨fun _ => Except.error StatError.absent, none, [⟨"/(", "/m", none⟩]⟩

/-- Host state whose only configuration is a mapping with the logical path
`/f.o` — its sliced pattern carries a regex `.` wildcard. -/
def envDotMapping : Env :=
  ⟨fun _ => Except.error StatError.absent, none, [⟨"/f.o", "/phys", none⟩]⟩

/-- Two strings with the same character list are equal. -/
theorem strDataEq {s t : String} (h : s.data = t.data) : s = t := by
  cases s; cases t; exact congrArg String.mk h

/-- Normalizing dots preserves the length. -/
theorem strLen_dotsToSlashes (s : String) : strLen (dotsToSlashes s) = strLen s := by
  simp [strLen, dotsToSlashes]

/-- A non-empty dotted path normalizes to a non-empty path. -/
theorem strLen_pos_of_ne (s : String) (h : s ≠ "") : 0 < strLen (dotsToSlashes s) := by
  rw [strLen_dotsToSlashes]
  cases hd : s.data with
  | nil => exact absurd (strDataEq (by rw [hd])) h
  | cons c cs => simp [strLen, hd]

/-- The mapping-tier loop only ever appends to the accumulated paths. -/
theorem mappingLoop_eq_append (env : Env) (norm : String) :
    ∀ (ms paths : List String), ∃ suf, mappingLoop env norm paths ms = paths ++ suf := by
  intro ms
  induction ms with
  | nil => exact fun paths => ⟨[], by simp [mappingLoop]⟩
  | cons mp rest ih =>
    intro paths
    by_cases h : fileExists env mp = true
    · by_cases hn : 0 < strLen norm
      · exact ⟨[mp], by simp [mappingLoop, h, hn]⟩
      · obtain ⟨suf, hs⟩ := ih (paths ++ [mp])
        exact ⟨[mp] ++ suf, by simp [mappingLoop, h, hn, hs]⟩
    · obtain ⟨suf, hs⟩ := ih paths
      exact ⟨suf, by simp [mappingLoop, h, hs]⟩

/-- The root tier only ever appends to the accumulated paths. -/
theorem rootTier_eq_append (env : Env) (norm : String) (paths : List String) :
    ∃ suf, rootTier env norm paths = paths ++ suf := by
  unfold rootTier mappingTier
  cases hr : resolveRootPath env norm with
  | none => exact mappingLoop_eq_append env norm _ paths
  | some rp =>
    by_cases hg : rp ≠ "" ∧ fileExists env rp = true
    · by_cases hn : 0 < strLen norm
      · exact ⟨[rp], by simp [hg, hn]⟩
      · obtain ⟨suf, hs⟩ := mappingLoop_eq_append env norm
          (resolveCustomMappingPaths env norm) (paths ++ [rp])
        exact ⟨[rp] ++ suf, by simp [hg, hn, hs]⟩
    · obtain ⟨suf, hs⟩ := mappingLoop_eq_append env norm
        (resolveCustomMappingPaths env norm) paths
      exact ⟨suf, by simp [hg, hs]⟩

/-- With a non-empty normalized path, the mapping-tier loop started on an
empty accumulator returns at most one path. -/
theorem mappingLoop_length_le (env : Env) (norm : String) (hn : 0 < strLen norm) :
    ∀ ms : List String, (mappingLoop env norm [] ms).length ≤ 1 := by
  intro ms
  induction ms with
  | nil => simp [mappingLoop]
  | cons mp rest ih =>
    by_cases h : fileExists env mp = true
    · simp [mappingLoop, h, hn]
    · simpa [mappingLoop, h] using ih

/-- With a non-empty normalized path, the root tier started on an empty
accumulator returns at most one path. -/
theorem rootTier_length_le (env : Env) (norm : String) (hn : 0 < strLen norm) :
    (rootTier env norm []).length ≤ 1 := by
  unfold rootTier mappingTier
  cases hr : resolveRootPath env norm with
  | none => exact mappingLoop_length_le env norm hn _
  | some rp =>
    by_cases hg : rp ≠ "" ∧ fileExists env rp = true
    · simp [hg, hn]
    · simpa [hg] using mappingLoop_length_le env norm hn _

/-- C1: for every non-empty dotted path whose local-tier candidate exists,
`resolveDottedPaths` returns exactly that single local candidate; the
environment's workspace root and mapping table are arbitrary, so the root
and mapping tiers cannot influence the result. -/
theorem resolveDottedPaths_localShortCircuit (env : Env) (dotPath baseUri : String)
    (hne : dotPath ≠ "")
    (hex : fileExists env (resolveRelativePath baseUri (dotsToSlashes dotPath)) = true) :
    resolveDottedPaths env dotPath baseUri
      = [resolveRelativePath baseUri (dotsToSlashes dotPath)] := by
  have hn := strLen_pos_of_ne dotPath hne
  simp [resolveDottedPaths, hex, hn]

/-- C1 witness: in a host state where every path exists and both a workspace
root and a matching mapping are configured, the result is the local hit
alone. -/
theorem resolveDottedPaths_localShortCircuit_witness :
    resolveDottedPaths envAllFiles "a.b" "/ws/doc.cfm" = ["/ws/doc.cfm/a/b"] :=
  (resolveDottedPaths_localShortCircuit envAllFiles "a.b" "/ws/doc.cfm"
    (by decide) (by decide)).trans (by decide)

/-- C5 counterexample: in a host state where exactly the candidate obtained
by joining the normalized path onto the directory containing the base
location exists, resolution still returns nothing, because the code probes
the join onto the base location itself. -/
theorem localTier_containingDirectory_counterexample :
    joinPath (containingDirectory "/proj/dir/file.cfm") (dotsToSlashes "a.b") = "/proj/dir/a/b"
    ∧ fileExists envLocalDirOnly "/proj/dir/a/b" = true
    ∧ resolveDottedPaths envLocalDirOnly "a.b" "/proj/dir/file.cfm" = [] := by
  exact ⟨by decide, by decide, by decide⟩

/-- C5 (amended): in the local tier, the candidate path tested for existence
is the normalized dotted path joined onto the base location itself (not onto
the directory containing it); whenever that candidate exists it is the first
entry of the result. -/
theorem resolveDottedPaths_localCandidate_joinsBase (env : Env) (dotPath baseUri : String)
    (hex : fileExists env (joinPath baseUri (dotsToSlashes dotPath)) = true) :
    (resolveDottedPaths env dotPath baseUri).head?
      = some (joinPath baseUri (dotsToSlashes dotPath)) := by
  by_cases hn : 0 < strLen (dotsToSlashes dotPath)
  · simp [resolveDottedPaths, resolveRelativePath, hex, hn]
  · obtain ⟨suf, hs⟩ := rootTier_eq_append env (dotsToSlashes dotPath)
      [joinPath baseUri (dotsToSlashes dotPath)]
    simp [resolveDottedPaths, resolveRelativePath, hex, hn, hs]

/-- C5 witness: the amended local-candidate rule at a concrete input. -/
theorem resolveDottedPaths_localCandidate_joinsBase_witness :
    (resolveDottedPaths envAllFiles "a.b" "/base").head? = some "/base/a/b" :=
  (resolveDottedPaths_localCandidate_joinsBase envAllFiles "a.b" "/base" (by decide)).trans
    (by decide)

/-- C6: for a non-empty dotted path the result has at most one entry; with
an empty dotted path the accumulation across tiers can produce two entries;
and an empty result list is a valid outcome. -/
theorem resolveDottedPaths_multiplicity :
    (∀ (env : Env) (dotPath baseUri : String), dotPath ≠ "" →
      (resolveDottedPaths env dotPath baseUri).length ≤ 1)
    ∧ 2 ≤ (resolveDottedPaths envAllFiles "" "/b").length
    ∧ resolveDottedPaths envFooMapping "a.b" "/base" = [] := by
  refine ⟨?_, by decide, by decide⟩
  intro env dotPath baseUri hne
  have hn := strLen_pos_of_ne dotPath hne
  by_cases hex : fileExists env (resolveRelativePath baseUri (dotsToSlashes dotPath)) = true
  · simp [resolveDottedPaths, hex, hn]
  · simpa [resolveDottedPaths, hex] using rootTier_length_le env (dotsToSlashes dotPath) hn

/-- The literal-fragment test holds exactly when the normalized path equals
the sliced logical path or begins with it followed by a separator. -/
theorem logicalPathStartPatternTest_iff (sliced p : String) :
    logicalPathStartPatternTest sliced p = true ↔
      (p = sliced ∨ ∃ rest, p.data = sliced.data ++ '/' :: rest) := by
  unfold logicalPathStartPatternTest
  rw [Bool.and_eq_true]
  constructor
  · rintro ⟨h1, h2⟩
    rw [List.isPrefixOf_iff_prefix] at h1
    obtain ⟨t, ht⟩ := h1
    rw [← ht, List.drop_left] at h2
    cases t with
    | nil => exact Or.inl (strDataEq (by rw [← ht]; simp))
    | cons c t' =>
      have hc : c = '/' := by simpa using h2
      exact Or.inr ⟨t', by rw [← ht, hc]⟩
  · rintro (rfl | ⟨rest, hr⟩)
    · refine ⟨by rw [List.isPrefixOf_iff_prefix], ?_⟩
      rw [List.drop_length]
    · rw [hr]
      refine ⟨by rw [List.isPrefixOf_iff_prefix]; exact List.prefix_append _ _, ?_⟩
      rw [List.drop_left]
      simp

/-- Replacing backslashes is the identity on backslash-free strings. -/
theorem backslashesToSlashes_of_noBackslash (p : String) (h : '\\' ∉ p.data) :
    backslashesToSlashes p = p := by
  apply strDataEq
  show p.data.map (fun c => if c = '\\' then '/' else c) = p.data
  have hmap : ∀ l : List Char, '\\' ∉ l →
      l.map (fun c => if c = '\\' then '/' else c) = l := by
    intro l
    induction l with
    | nil => intro _; rfl
    | cons c cs ih =>
      intro hl
      simp only [List.mem_cons, not_or] at hl
      have hne : ¬ c = '\\' := fun hc => hl.1 hc.symm
      simp [ih hl.2, hne]
  exact hmap p.data h

/-- The mapping loop of `resolveCustomMappingPaths` produces exactly one
candidate per matching mapping, in table order, with no existence check. -/
theorem mappingCandidates_eq_filterMap (env : Env) (a n : String) :
    ∀ ms : List CFMLMapping,
      mappingCandidates env a n ms =
        (ms.filter fun m => logicalPathStartPatternTest (strDrop m.logicalPath 1) n).map
          fun m => joinPath (effectiveDirectoryPath env m)
            (strDrop a (strLen (strDrop m.logicalPath 1))) := by
  intro ms
  induction ms with
  | nil => rfl
  | cons m rest ih =>
    by_cases h : logicalPathStartPatternTest (strDrop m.logicalPath 1) n = true
    · simp [mappingCandidates, h, ih, List.filter_cons]
    · simp [mappingCandidates, h, ih, List.filter_cons]

/-- C8: a link text carrying an explicit scheme resolves to that reference
verbatim, for every environment — in particular the filesystem probe plays
no part in the result. -/
theorem resolveLink_schemeVerbatim (env : Env) (documentFileName link : String)
    (h : hasExplicitScheme link = true) :
    resolveLink env documentFileName link = some link := by
  have hhead : ¬ link.data.head? = some '#' := by
    unfold hasExplicitScheme at h
    cases hd : link.data with
    | nil => simp
    | cons c cs =>
      rw [hd] at h
      have h' : isSchemeStartChar c = true ∧ schemeTailReachesColon cs = true := by
        simpa using h
      intro hcontra
      have hc : c = '#' := by simpa using hcontra
      rw [hc] at h'
      exact absurd h'.1 (by decide)
  unfold resolveLink
  rw [if_neg hhead, if_pos h]

/-- C8 witness: a scheme-qualified link resolves verbatim even in a host
state where every filesystem probe fails. -/
theorem resolveLink_schemeVerbatim_witness :
    resolveLink envProbeFail "/d/x.cfm" "https://example.com/x"
      = some "https://example.com/x" :=
  resolveLink_schemeVerbatim envProbeFail "/d/x.cfm" "https://example.com/x" (by decide)

/-- C9: `fileExists` reports `false` for every failing probe, whatever the
failure kind, and two environments that fail (for any reasons) on the same
path are indistinguishable through it. -/
theorem fileExists_reportsFalse_onFailure (env env2 : Env) (p : String)
    (e e2 : StatError)
    (h : env.statE p = Except.error e) (h2 : env2.statE p = Except.error e2) :
    fileExists env p = false ∧ fileExists env p = fileExists env2 p := by
  unfold fileExists
  rw [h, h2]
  exact ⟨rfl, rfl⟩

/-- C9 witness: an absent entry and an invalid-path failure are both
reported as `false`. -/
theorem fileExists_reportsFalse_onFailure_witness :
    fileExists envFooMapping "/q" = false
      ∧ fileExists envFooMapping "/q" = fileExists envProbeFail "/q" :=
  fileExists_reportsFalse_onFailure envFooMapping envProbeFail "/q"
    StatError.absent StatError.invalid rfl rfl

/-- C10: `filterDirectories` keeps exactly the directory entries and
`filterComponents` exactly the file entries whose lowercased name ends in
`.cfc`; both results are order-preserving sublists of the input and are
disjoint; and the suffix test is case-insensitive (`Foo.CFC` and `foo.cfc`
match, `foo.cfctxt` does not). -/
theorem filters_characterization :
    (∀ L : List (String × FileType),
      List.Sublist (filterDirectories L) L
      ∧ List.Sublist (filterComponents L) L
      ∧ (∀ e, e ∈ filterDirectories L ↔ e ∈ L ∧ e.2 = FileType.directory)
      ∧ (∀ e, e ∈ filterComponents L ↔
          e ∈ L ∧ e.2 = FileType.file
            ∧ ∃ pre, pre ++ ".cfc".data = e.1.data.map Char.toLower)
      ∧ ∀ e, ¬(e ∈ filterDirectories L ∧ e ∈ filterComponents L))
    ∧ cfcSuffixTest "Foo.CFC" = true
    ∧ cfcSuffixTest "foo.cfc" = true
    ∧ cfcSuffixTest "foo.cfctxt" = false := by
  refine ⟨?_, by decide, by decide, by decide⟩
  intro L
  have hdir : ∀ e : String × FileType,
      e ∈ filterDirectories L ↔ e ∈ L ∧ e.2 = FileType.directory := by
    intro e
    unfold filterDirectories
    rw [List.mem_filter]
    by_cases h : e.2 = FileType.directory <;> simp [h]
  have hsuffix : ∀ name : String, cfcSuffixTest name = true ↔
      ∃ pre, pre ++ ".cfc".data = name.data.map Char.toLower := by
    intro name
    unfold cfcSuffixTest
    rw [List.isSuffixOf_iff_suffix]
    exact Iff.rfl
  have hcomp : ∀ e : String × FileType,
      e ∈ filterComponents L ↔
        e ∈ L ∧ e.2 = FileType.file ∧ cfcSuffixTest e.1 = true := by
    intro e
    unfold filterComponents
    rw [List.mem_filter]
    by_cases h1 : e.2 = FileType.file <;> by_cases h2 : cfcSuffixTest e.1 = true <;>
      simp [h1, h2]
  refine ⟨?_, ?_, hdir, ?_, ?_⟩
  · exact List.filter_sublist L
  · exact List.filter_sublist L
  · intro e
    rw [hcomp e, hsuffix e.1]
  · intro e hboth
    have h1 := ((hdir e).mp hboth.1).2
    have h2 := ((hcomp e).mp hboth.2).2.1
    rw [h1] at h2
    exact absurd h2 (by decide)

/-- C10 witness: the directory characterization instantiated at a concrete
listing. -/
theorem filters_characterization_witness :
    ("a", FileType.directory) ∈ filterDirectories [("a", FileType.directory)] :=
  ((filters_characterization.1 [("a", FileType.directory)]).2.2.1
    ("a", FileType.directory)).mpr (by decide)

/-- C2 (evaluation at the failing input): on the document
`<img src="a/b.png">` whose relative target exists as a file, the sequential
per-match pipeline of the scan produces exactly one link whose span
`[10, 17)` slices the document text to exactly the captured link text
`a/b.png` — but the value the `provideDocumentLinks` promise is resolved
with is the empty list, because `forEach(async ...)` never awaits the
callbacks that would push the entry. -/
theorem provideDocumentLinks_asyncForEach_divergence :
    scanDocumentLinks envImgDoc "/ws/doc.cfm" imgDocText
      = [⟨10, 17, "/ws/doc.cfm/a/b.png"⟩]
    ∧ sliceStr imgDocText 10 17 = "a/b.png"
    ∧ provideDocumentLinksResolvedValue envImgDoc "/ws/doc.cfm" imgDocText = [] := by
  exact ⟨by decide, by decide, rfl⟩

/-- C6 witness: the at-most-one-entry bound instantiated at a concrete
non-empty dotted path. -/
theorem resolveDottedPaths_multiplicity_witness :
    (resolveDottedPaths envAllFiles "a.b" "/w").length ≤ 1 :=
  resolveDottedPaths_multiplicity.1 envAllFiles "a.b" "/w" (by decide)

/-- A sequence of literal nodes matches at the front exactly like a prefix
check, leaving the corresponding drop of the input. -/
theorem matchNodesPrefix_lit :
    ∀ cs ds : List Char,
      matchNodesPrefix (cs.map RegexNode.lit) ds =
        if cs.isPrefixOf ds = true then some (ds.drop cs.length) else none := by
  intro cs
  induction cs with
  | nil => intro ds; simp [matchNodesPrefix]
  | cons c cs ih =>
    intro ds
    cases ds with
    | nil => simp [matchNodesPrefix]
    | cons d ds' =>
      by_cases h : d = c
      · simp [matchNodesPrefix, List.isPrefixOf, h, ih ds']
      · have hcd : ¬ c = d := fun hc => h hc.symm
        simp [matchNodesPrefix, List.isPrefixOf, h, hcd]

/-- On literal node sequences, the anchored start test coincides with the
literal-fragment test. -/
theorem nodesStartTest_lit (sliced p : String) :
    nodesStartTest (sliced.data.map RegexNode.lit) p
      = logicalPathStartPatternTest sliced p := by
  unfold nodesStartTest logicalPathStartPatternTest
  rw [matchNodesPrefix_lit]
  by_cases hpre : sliced.data.isPrefixOf p.data = true
  · rw [if_pos hpre, hpre, Bool.true_and]
    cases hdrop : p.data.drop sliced.data.length with
    | nil => rfl
    | cons c rest => rfl
  · have hfalse : sliced.data.isPrefixOf p.data = false := by
      cases hb : sliced.data.isPrefixOf p.data
      · rfl
      · exact absurd hb hpre
    rw [if_neg hpre, hfalse, Bool.false_and]

/-- On metacharacter-free sliced logical paths, the faithful regex test is
decided and agrees with the literal-fragment test. -/
theorem logicalPathStartRegexTest_of_plain (sliced p : String)
    (h : slicedPlain sliced = true) :
    logicalPathStartRegexTest sliced p
      = RegexTestResult.result (logicalPathStartPatternTest sliced p) := by
  unfold slicedPlain at h
  rw [List.all_eq_true] at h
  have hfrag : slicedLiteralDotFragment sliced = true := by
    unfold slicedLiteralDotFragment
    rw [List.all_eq_true]
    intro c hc
    rw [Bool.or_eq_true]
    exact Or.inl (h c hc)
  have hmap : (sliced.data.map fun c => if c = '.' then RegexNode.anyChar else RegexNode.lit c)
      = sliced.data.map RegexNode.lit := by
    apply List.map_congr_left
    intro c hc
    have hm := h c hc
    have hdot : ¬ c = '.' := by
      intro hc'
      rw [hc'] at hm
      exact absurd hm (by decide)
    simp [hdot]
  have hcomp : compileSlicedPattern sliced
      = SlicedCompileResult.compiled (sliced.data.map RegexNode.lit) := by
    unfold compileSlicedPattern
    rw [if_pos hfrag, hmap]
  unfold logicalPathStartRegexTest
  rw [hcomp, ← nodesStartTest_lit]

/-- On a mapping table of metacharacter-free logical paths, the faithful
mapping loop returns normally with the pure model's candidate list. -/
theorem mappingCandidatesE_of_plain (env : Env) (a n : String) :
    ∀ ms : List CFMLMapping,
      (∀ m ∈ ms, slicedPlain (strDrop m.logicalPath 1) = true) →
      mappingCandidatesE env a n ms = ResolveOutcome.ok (mappingCandidates env a n ms) := by
  intro ms
  induction ms with
  | nil => intro _; rfl
  | cons m rest ih =>
    intro hp
    have hm := hp m (List.mem_cons_self m rest)
    have hrest := fun m' hm' => hp m' (List.mem_cons_of_mem m hm')
    unfold mappingCandidatesE
    rw [logicalPathStartRegexTest_of_plain _ _ hm, ih hrest]
    rfl

/-- C3 (evaluation at the failing configuration): with a mapping whose
logical path is `/(`, the regex construction on line 141 raises and no list
is returned, while the claim's highlighted unresolvable-context
configuration — `isPhysicalDirectoryPath` false with no project root — is
genuinely recovered to the empty list. -/
theorem resolveDottedPathsE_raises_vs_recovers :
    resolveDottedPathsE envParenMapping "a.b" "/b" = ResolveOutcome.raises
    ∧ resolveDottedPathsE envNoRootDangerous "m.x" "/b" = ResolveOutcome.ok [] := by
  exact ⟨by decide, by decide⟩

/-- C4 counterexample: the claimed matching rule fails on the program's
unescaped-regex semantics in both directions — a mapping with logical path
`/f.o` matches the normalized path `fxo` (regex `.` wildcard) although
`fxo` neither equals `f.o` nor extends it by a separator, and a mapping
with logical path `/foo` does not match the normalized path `/foo` (the
claim's own example) because of the leading separator. -/
theorem mappingMatch_rule_counterexample :
    logicalPathStartRegexTest (strDrop "/f.o" 1) "fxo" = RegexTestResult.result true
    ∧ "fxo" ≠ "f.o"
    ∧ ("f.o".data ++ ['/']).isPrefixOf "fxo".data = false
    ∧ resolveCustomMappingPathsE envDotMapping "fxo" = ResolveOutcome.ok ["/phys"]
    ∧ logicalPathStartRegexTest (strDrop "/foo" 1) "/foo" = RegexTestResult.result false
    ∧ resolveCustomMappingPathsE envFooMapping "/foo" = ResolveOutcome.ok [] := by
  exact ⟨by decide, by decide, by decide, by decide, by decide, by decide⟩

/-- C4 (amended): for every logical mapping whose stripped logical path is
free of regex metacharacters, the mapping matches exactly when the
normalized path equals the stripped prefix or begins with it followed by a
separator; in particular a mapping with logical path `/foo` matches the
normalized paths `foo` and `foo/bar` (no leading separator) but never
`/foobar/baz` or `foobar/baz`. -/
theorem mappingMatch_plainPrefix_characterization :
    (∀ slicedLogicalPath normalizedPath : String,
      slicedPlain slicedLogicalPath = true →
      (logicalPathStartRegexTest slicedLogicalPath normalizedPath
          = RegexTestResult.result true ↔
        (normalizedPath = slicedLogicalPath
          ∨ ∃ rest, normalizedPath.data = slicedLogicalPath.data ++ '/' :: rest)))
    ∧ resolveCustomMappingPathsE envFooMapping "foo" = ResolveOutcome.ok ["/phys"]
    ∧ resolveCustomMappingPathsE envFooMapping "foo/bar" = ResolveOutcome.ok ["/phys/bar"]
    ∧ resolveCustomMappingPathsE envFooMapping "/foobar/baz" = ResolveOutcome.ok []
    ∧ resolveCustomMappingPathsE envFooMapping "foobar/baz" = ResolveOutcome.ok [] := by
  refine ⟨?_, by decide, by decide, by decide, by decide⟩
  intro sliced p hplain
  rw [logicalPathStartRegexTest_of_plain sliced p hplain]
  simp only [RegexTestResult.result.injEq]
  exact logicalPathStartPatternTest_iff sliced p

/-- C4 witness: the amended matching rule applied at a concrete prefix and
path. -/
theorem mappingMatch_plainPrefix_characterization_witness :
    logicalPathStartRegexTest "foo" "foo/bar" = RegexTestResult.result true :=
  (mappingMatch_plainPrefix_characterization.1 "foo" "foo/bar" (by decide)).mpr
    (Or.inr ⟨"bar".data, by decide⟩)

/-- C7 counterexample: a mapping table whose logical path is `/(` makes the
call raise — no candidate list, matching or otherwise, is returned. -/
theorem resolveCustomMappingPathsE_metacharacter_counterexample :
    resolveCustomMappingPathsE envParenMapping "m/x" = ResolveOutcome.raises
    ∧ logicalPathStartRegexTest (strDrop "/(" 1) "m/x" = RegexTestResult.invalidPattern := by
  exact ⟨by decide, by decide⟩

/-- C7 (amended): for every mapping table whose logical paths are free of
regex metacharacters once the leading separator is stripped, and every
backslash-free (already normalized) path, the call returns normally with
one candidate per matching mapping — the mapping's effective physical base
joined with the remainder of the normalized path after the matched
prefix — for all matching mappings, in mapping-table order, with no
filtering by existence. -/
theorem resolveCustomMappingPathsE_characterization (env : Env) (appendingPath : String)
    (hplain : ∀ m ∈ env.mappings, slicedPlain (strDrop m.logicalPath 1) = true)
    (h : '\\' ∉ appendingPath.data) :
    resolveCustomMappingPathsE env appendingPath =
      ResolveOutcome.ok
        ((env.mappings.filter fun m =>
          logicalPathStartPatternTest (strDrop m.logicalPath 1)
            (backslashesToSlashes appendingPath)).map
          fun m => joinPath (effectiveDirectoryPath env m)
            (strDrop (backslashesToSlashes appendingPath)
              (strLen (strDrop m.logicalPath 1)))) := by
  unfold resolveCustomMappingPathsE
  rw [mappingCandidatesE_of_plain env appendingPath (backslashesToSlashes appendingPath)
      env.mappings hplain]
  rw [mappingCandidates_eq_filterMap]
  rw [backslashesToSlashes_of_noBackslash appendingPath h]

/-- C7 witness: the characterization evaluated on the `/foo → /phys`
mapping table. -/
theorem resolveCustomMappingPathsE_characterization_witness :
    resolveCustomMappingPathsE envFooMapping "foo/x" = ResolveOutcome.ok ["/phys/x"] :=
  (resolveCustomMappingPathsE_characterization envFooMapping "foo/x"
    (by decide) (by decide)).trans (by decide)
